import Mathlib

/-!
Verification of the Sprung repository's flattening tool (`Sprung/flatten.py`)
and its two collaborator scripts (`Scripts/redact_large_lines.py`,
`Scripts/export_template_defaults.py`) against the repository specification.

Files are modelled by their root-relative path (a list of path components,
each a list of characters), their raw character contents, and a flag telling
whether opening the file for reading succeeds.  All functions below are
shallow embeddings of the corresponding Python functions, translated
clause by clause from the source.
-/

set_option maxRecDepth 16000

deriving instance DecidableEq for Except

/-- Number of newline characters in a character list (Python `s.count("\n")`). -/
def countNL (cs : List Char) : Nat := cs.count '\n'

/-- Lexicographic strict comparison of character lists by code point
(Python string `<`). -/
def charListLt : List Char → List Char → Bool
  | _, [] => false
  | [], _ :: _ => true
  | a :: as, b :: bs => decide (a < b) || (a == b && charListLt as bs)

/-- Lexicographic strict comparison of component lists (Python compares
`Path` objects by their tuple of parts, each part a string). -/
def partsLt : List (List Char) → List (List Char) → Bool
  | _, [] => false
  | [], _ :: _ => true
  | a :: as, b :: bs => charListLt a b || (a == b && partsLt as bs)

/-- Insert `x` before the first element `y` with `le x y` (the insertion
step of a stable ascending sort). -/
def pyInsert (le : α → α → Bool) (x : α) : List α → List α
  | [] => [x]
  | y :: ys => if le x y then x :: y :: ys else y :: pyInsert le x ys

/-- Stable ascending sort, the behaviour of Python's `sorted`: an element
is placed before exactly those elements it is strictly below, and before
later-occurring equal elements. -/
def pySort (le : α → α → Bool) : List α → List α
  | [] => []
  | x :: xs => pyInsert le x (pySort le xs)

/-- Extension of a file name, CPython's `PurePath.suffix`: the segment from
the last dot to the end, provided that dot is neither the first nor the last
character; otherwise empty. -/
def pathSuffix (name : List Char) : List Char :=
  let r := name.reverse
  match r.findIdx? (· == '.') with
  | none => []
  | some j =>
    if j = 0 then []
    else if j = name.length - 1 then []
    else '.' :: (r.take j).reverse

/-- The fixed extension allow-list of `gather_swift_files`
(`flatten.py` line 14). -/
def allowedExts : List (List Char) := [".swift".toList, ".txt".toList, ".md".toList]

/-- The output-marker name used for merged archives (`flatten.py` lines 15, 49). -/
def mergedMarker : List Char := "Merged_".toList

/-- The eligibility filter of `gather_swift_files` (`flatten.py` lines 12-17):
the extension is allow-listed and the name does not start with the merged
marker.  (The `is_file()` clause is the fact that only regular files are
modelled.) -/
def eligibleName (name : List Char) : Bool :=
  allowedExts.contains (pathSuffix name) && !(mergedMarker.isPrefixOf name)

/-- One regular file under the root: its path relative to the root (as the
list of path components), its raw decoded contents, and whether opening it
for reading succeeds.  Decoding itself never fails (the source opens files
with replacement of invalid bytes). -/
structure SrcFile where
  relParts : List (List Char)
  contents : List Char
  readable : Bool
deriving DecidableEq, Repr

/-- Final path component of a file (Python `p.name`). -/
def fileName (f : SrcFile) : List Char := f.relParts.getLastD []

/-- One top-level subdirectory of the root: its name and all regular files
anywhere below it (the recursive enumeration that `rglob("*")` performs),
with paths relative to the root. -/
structure Subdir where
  name : List Char
  files : List SrcFile
deriving DecidableEq, Repr

/-- Model of `gather_swift_files` (`flatten.py` lines 10-17): the recursively
enumerated regular files that pass the eligibility filter. -/
def gather_swift_files (d : Subdir) : List SrcFile :=
  d.files.filter (fun f => eligibleName (fileName f))

/-- Number of lines Python's file iteration yields for given contents:
one line per newline, plus a final unterminated line when the contents do
not end in a newline. -/
def pyIterLineCount (cs : List Char) : Nat :=
  if cs.isEmpty then 0
  else countNL cs + (if cs.getLast? == some '\n' then 0 else 1)

/-- Model of `count_lines_in_dir` (`flatten.py` lines 20-29): total of the
per-file line counts over the gathered files; a file whose open fails is
swallowed by the `try`/`except` and contributes 0. -/
def count_lines_in_dir (d : Subdir) : Nat :=
  ((gather_swift_files d).map
    (fun f => if f.readable then pyIterLineCount f.contents else 0)).sum

/-- The divider constant (`flatten.py` line 7): a newline, eighty equal
signs, a newline. -/
def divider : List Char := '\n' :: (List.replicate 80 '=' ++ ['\n'])

/-- Path rendering with `/` separators (Python formatting of a `PosixPath`
inside the f-string on line 58). -/
def joinParts (parts : List (List Char)) : List Char :=
  match parts with
  | [] => []
  | p :: ps => p ++ (ps.map (fun q => '/' :: q)).flatten

/-- The header block written before a file's contents (`flatten.py` line 58). -/
def headerFor (relParts : List (List Char)) : List Char :=
  divider ++ "// FILE: ".toList ++ joinParts relParts ++ ['\n'] ++ divider ++ ['\n']

/-- Newline count of a file's header block, the `header_lines` of
`flatten.py` line 61. -/
def headerLines (f : SrcFile) : Nat := countNL (headerFor f.relParts)

/-- The line count recorded for a file (`flatten.py` line 67): newline count
of its contents plus one. -/
def contentLines (f : SrcFile) : Nat := countNL f.contents + 1

/-- One index entry, the tuple built on `flatten.py` line 68:
`(start_line, rel_path.name, file_line_count, rel_path)`. -/
structure Entry where
  start_line : Nat
  filename : List Char
  loc : Nat
  relParts : List (List Char)
deriving DecidableEq, Repr

/-- Everything the archive loop writes for one file: header, raw contents,
one trailing newline (`flatten.py` lines 59, 66, 70). -/
def chunk (f : SrcFile) : List Char := headerFor f.relParts ++ f.contents ++ ['\n']

/-- Errors a run can raise. `readError` models an uncaught exception while
opening a file inside `combine_swift_files` (line 64); `noneUnpack` models
the `TypeError` raised when `main` unpacks the `None` that
`combine_swift_files` returns for an empty group (line 167). -/
inductive PyError where
  | readError
  | noneUnpack
deriving DecidableEq, Repr

/-- The body of the writing loop of `combine_swift_files` (`flatten.py`
lines 55-70), over the already-sorted file list, threading the line
cursor `line_counter`.  For each file: the entry records the cursor before
the header; the cursor then advances by the header's newline count and by
the recorded content line count; a trailing newline is written but does not
advance the cursor.  A file whose open fails raises (the exception is not
caught here); the partial output written before the exception is not
retained in the model, since an aborted run's bytes are not consumed by
anything specified. -/
def writeLoop : List SrcFile → Nat → Except PyError (List Entry × List Char)
  | [], _ => .ok ([], [])
  | f :: fs, c =>
    let h := headerFor f.relParts
    if f.readable then
      match writeLoop fs (c + countNL h + (countNL f.contents + 1)) with
      | .error e => .error e
      | .ok (es, text) =>
        .ok (⟨c, fileName f, countNL f.contents + 1, f.relParts⟩ :: es,
             h ++ f.contents ++ ['\n'] ++ text)
    else .error .readError

/-- All eligible files of a list of subdirectories, in discovery order
(`flatten.py` lines 37-39). -/
def allFiles (ds : List Subdir) : List SrcFile :=
  (ds.map gather_swift_files).flatten

/-- The comparison `sorted(all_files)` sorts by: Python `Path < Path`,
component-tuple order.  `fileLe a b` holds when `b < a` fails, which is the
placement test of a stable ascending sort. -/
def fileLe (a b : SrcFile) : Bool := !(partsLt b.relParts a.relParts)

/-- The sorted file list of one archive (`flatten.py` line 56). -/
def sortedFiles (ds : List Subdir) : List SrcFile := pySort fileLe (allFiles ds)

/-- The archive's output name (`flatten.py` lines 45-49): the directory name
for a single directory, otherwise the merged marker followed by the names
joined with `+`. -/
def outName (ds : List Subdir) : List Char :=
  match ds with
  | [d] => d.name
  | _ =>
    mergedMarker ++
      (match ds.map Subdir.name with
       | [] => []
       | n :: ns => n ++ (ns.map (fun m => '+' :: m)).flatten)

/-- One produced archive: its label (also its file name minus `.txt`), its
index entries, and the text written to the archive file. -/
structure ArchiveOut where
  label : List Char
  entries : List Entry
  text : List Char
deriving DecidableEq, Repr

/-- Name of the file an archive is written to (`flatten.py` line 51). -/
def archiveFileName (a : ArchiveOut) : List Char := a.label ++ ".txt".toList

/-- Model of `combine_swift_files` (`flatten.py` lines 32-73): `none` when
the group holds no eligible files, otherwise the label, entries and text
produced by the writing loop started at line cursor 1. -/
def combine_swift_files (ds : List Subdir) : Except PyError (Option ArchiveOut) :=
  if (allFiles ds).isEmpty then .ok none
  else
    match writeLoop (sortedFiles ds) 1 with
    | .error e => .error e
    | .ok (es, text) => .ok (some ⟨outName ds, es, text⟩)

/-- Total line count of a group, the sort key
`sum(locs[d] for d in g)` of `flatten.py` line 86.  The association list
models the Python dict: a fresh binding is consed on, and lookup takes the
first match.  Members of reachable groups are always original keys of the
dict, so the missing-key default 0 is never taken (Python would raise). -/
def sumLocs (locs : List (List Char × Nat)) (g : List (List Char)) : Nat :=
  (g.map (fun d => ((locs.lookup d).getD 0))).sum

/-- The composite key `"+".join(new_group)` of `flatten.py` line 94. -/
def joinPlus (g : List (List Char)) : List Char :=
  match g with
  | [] => []
  | n :: ns => n ++ (ns.map (fun m => '+' :: m)).flatten

/-- The merging loop of `merge_smallest_dirs` (`flatten.py` lines 84-96),
with explicit fuel.  Each Python iteration removes two groups and appends
one, so the group count falls by exactly 1 per iteration and an initial
fuel of the starting group count always suffices; the fuel never runs out
on inputs the Python loop terminates on.  The two groups with smallest
combined line count are the first two of the stable sort by group total;
`new_group` is their concatenation, the two are removed (first occurrence,
Python `list.remove`) and the concatenation appended, and the dict gains a
binding for the composite key.  The unreachable case of a sorted list with
fewer than two groups (only possible when `max_files = 0`, where Python
raises `IndexError`) returns the groups unchanged. -/
def mergeLoop :
    Nat → List (List (List Char)) → List (List Char × Nat) → Nat →
      List (List (List Char))
  | 0, groups, _, _ => groups
  | fuel + 1, groups, locs, maxFiles =>
    if groups.length ≤ maxFiles then groups
    else
      match pySort (fun g1 g2 => decide (sumLocs locs g1 ≤ sumLocs locs g2)) groups with
      | g1 :: g2 :: _ =>
        mergeLoop fuel (((groups.erase g1).erase g2) ++ [g1 ++ g2])
          ((joinPlus (g1 ++ g2), sumLocs locs (g1 ++ g2)) :: locs) maxFiles
      | _ => groups

/-- Model of `merge_smallest_dirs` (`flatten.py` lines 76-97): start from
singleton groups in dict insertion order and run the merging loop until at
most `max_files` groups remain. -/
def merge_smallest_dirs (dir_locs : List (List Char × Nat)) (max_files : Nat) :
    List (List (List Char)) :=
  mergeLoop dir_locs.length (dir_locs.map (fun p => [p.1])) dir_locs max_files

/-- Name of the index file (`flatten.py` line 102). -/
def indexFileName : List Char := "SourceIndex.txt".toList

/-- The fixed preamble of the index file (`flatten.py` lines 104-112). -/
def indexPreamble : List Char :=
  (".\n│\n│  KEY:\n│    <number>  = line number where this file starts in the .txt file\n│    (<N> lines) = total number of lines of Swift code for that file\n│\n│  Example:  151  - InterviewOrchestrator.swift (22 lines)\n│           ↑start│          │ file length → 22 lines\n│\n").toList

/-- Decimal rendering of `start_line` left-justified to width 5, the
format item on `flatten.py` line 122. -/
def padLeft5 (n : Nat) : List Char :=
  let s := (Nat.repr n).toList
  s ++ List.replicate (5 - s.length) ' '

/-- One entry line of the index (`flatten.py` lines 120-122). -/
def entryLine (isLast : Bool) (e : Entry) : List Char :=
  (if isLast then "│   └── ".toList else "│   ├── ".toList) ++
    padLeft5 e.start_line ++ " - ".toList ++ e.filename ++
    " (".toList ++ (Nat.repr e.loc).toList ++ " lines)\n".toList

/-- The entry lines of one archive, the last drawn with the closing branch. -/
def entryLinesOf : List Entry → List Char
  | [] => []
  | [e] => entryLine true e
  | e :: es => entryLine false e ++ entryLinesOf es

/-- The index section of one archive (`flatten.py` lines 114-123): its
name line (annotated with the contributing directories when merged), its
entry lines, and a closing bar line. -/
def archiveSection (mergeInfo : List (List Char × List (List Char)))
    (label : List Char) (entries : List Entry) : List Char :=
  (match mergeInfo.lookup label with
   | some dirs =>
     "├── ".toList ++ label ++ ".txt  (merged: ".toList ++
       (match dirs with
        | [] => []
        | n :: ns => n ++ (ns.map (fun m => ',' :: ' ' :: m)).flatten) ++
       ")\n".toList
   | none => "├── ".toList ++ label ++ ".txt\n".toList) ++
  entryLinesOf entries ++ "│\n".toList

/-- Model of `create_index_file` (`flatten.py` lines 100-123): the full text
of `SourceIndex.txt`, archives in ascending label order. -/
def create_index_file (index_data : List (List Char × List Entry))
    (mergeInfo : List (List Char × List (List Char))) : List Char :=
  indexPreamble ++
    ((pySort (fun a b => !(charListLt b.1 a.1)) index_data).map
      (fun p => archiveSection mergeInfo p.1 p.2)).flatten

/-- The per-group loop of `main` (`flatten.py` lines 165-171), mapping each
group's names back to subdirectories and combining them.  The unpacking
`merged_label, entries = combine_swift_files(...)` raises `TypeError` when
the result is `None`, modelled by `noneUnpack`; a group whose archive was
produced is kept together with its group names. -/
def runGroups (ds : List Subdir) :
    List (List (List Char)) → Except PyError (List (ArchiveOut × List (List Char)))
  | [] => .ok []
  | g :: gs =>
    match combine_swift_files (g.filterMap (fun n => ds.find? (fun d => d.name == n))) with
    | .error e => .error e
    | .ok none => .error .noneUnpack
    | .ok (some a) =>
      match runGroups ds gs with
      | .error e => .error e
      | .ok rest => .ok (if a.entries.isEmpty then rest else (a, g) :: rest)

/-- What a successful run leaves in the output directory: the archives (file
name `label ++ ".txt"`, bytes `text`) and, when any archive was produced,
the index file's bytes. -/
structure RunOutput where
  archives : List ArchiveOut
  indexText : Option (List Char)
deriving DecidableEq, Repr

/-- Model of `main` (`flatten.py` lines 128-178) after argument parsing:
count lines per subdirectory, decide the grouping (the balancer runs only
when a truthy `max_files` is exceeded, with one slot reserved for the
index), flatten each group, and emit the index when any archive was
produced.  The parameter `now` stands for the wall clock available to a
run; `flatten.py` never reads a clock, so it is unused. -/
def flattenRun (_now : Nat) (ds : List Subdir) (maxFiles : Option Nat) :
    Except PyError RunOutput :=
  let dir_locs := ds.map (fun d => (d.name, count_lines_in_dir d))
  let groups :=
    match maxFiles with
    | some m =>
      if m ≠ 0 ∧ ds.length > m then merge_smallest_dirs dir_locs (max (m - 1) 1)
      else ds.map (fun d => [d.name])
    | none => ds.map (fun d => [d.name])
  match runGroups ds groups with
  | .error e => .error e
  | .ok outs =>
    let index_data := outs.map (fun p => (p.1.label, p.1.entries))
    let mergeInfo := outs.filterMap
      (fun p => if p.2.length > 1 then some (p.1.label, p.2) else none)
    .ok ⟨outs.map Prod.fst,
         if index_data.isEmpty then none
         else some (create_index_file index_data mergeInfo)⟩

/-- Rendering of the placeholder of `redact_large_lines.py` line 19 at a
given original length (the `PLACEHOLDER.format(length=...)` call). -/
def placeholderFor (n : Nat) : List Char :=
  "[redacted for brevity; original length: ".toList ++ (Nat.repr n).toList ++
    " chars]".toList

/-- Model of `redact_lines` (`redact_large_lines.py` lines 22-27): each line
whose length is at most the limit passes through unchanged; a longer line is
replaced by the placeholder carrying its original length, newline-terminated.
Input lines come from Python file iteration, so each carries its trailing
newline (except possibly the last) and the length counts it.  The limit is a
Python `int`, so it is modelled as a (possibly negative) integer. -/
def redact_lines (lines : List (List Char)) (limit : Int) : List (List Char) :=
  lines.map (fun line =>
    if (line.length : Int) ≤ limit then line else placeholderFor line.length ++ ['\n'])

/-- A node of the template exporter's output directory: a regular file with
contents, or a directory with children. -/
inductive FSEntry where
  | file (name : List Char) (content : List Char)
  | dir (name : List Char) (children : List FSEntry)
deriving Repr

/-- Name of a directory entry. -/
def entryName : FSEntry → List Char
  | .file n _ => n
  | .dir n _ => n

/-- The deletion loop of `ensure_clean_directory`
(`export_template_defaults.py` lines 45-50) as its effect on a directory
listing: a file child is unlinked; a directory child is recursively emptied
(a recursion whose result is not visible in the parent's listing, since it
only establishes `rmdir`'s emptiness precondition) and then removed.  Every
child is therefore removed. -/
def clearEntries : List FSEntry → List FSEntry
  | [] => []
  | .file _ _ :: rest => clearEntries rest
  | .dir _ _ :: rest => clearEntries rest

/-- Model of `ensure_clean_directory` (`export_template_defaults.py`
lines 43-51) as the resulting listing of the output directory: when it
exists, its children are all deleted; when it does not, `mkdir` creates it
empty. -/
def ensure_clean_directory (existing : Option (List FSEntry)) : List FSEntry :=
  match existing with
  | none => []
  | some children => clearEntries children

/-- One row of the `ZTEMPLATE` query of `export_template_defaults.py`
(lines 59-71), together with the newest matching `ZTEMPLATESEED` blob
(lines 100-109).  Nullable columns are options; blobs are kept as their
decoded characters (the JSON reparse-and-pretty-print of the script is a
pure transformation of these bytes and is abstracted by keeping the bytes,
which no verified claim inspects). -/
structure TemplateRow where
  slug : List Char
  rowName : List Char
  isDefault : Bool
  html : Option (List Char)
  text : Option (List Char)
  manifest : Option (List Char)
  seed : Option (List Char)
deriving DecidableEq, Repr

/-- An empty JSON object, the default for an absent manifest or seed. -/
def jsonEmptyObj : List Char := ['\x7b', '\x7d']

/-- True for a directory entry with the given name. -/
def isDirNamed (nm : List Char) : FSEntry → Bool
  | .dir n _ => n == nm
  | .file _ _ => false

/-- Python `Path.mkdir(parents=True, exist_ok=True)` on a child of the
output directory: create the directory when absent, keep it when present. -/
def mkdirP (es : List FSEntry) (nm : List Char) : List FSEntry :=
  if es.any (isDirNamed nm) then es else es ++ [.dir nm []]

/-- Python `Path.write_text` inside a listing: overwrite the entry of that
name when present, else create the file. -/
def putFile (nm content : List Char) (es : List FSEntry) : List FSEntry :=
  if es.any (fun e => entryName e == nm) then
    es.map (fun e => if entryName e == nm then .file nm content else e)
  else es ++ [.file nm content]

/-- Python `Path.write_text` on a file inside a named child directory. -/
def writeUnder (es : List FSEntry) (dirName fname content : List Char) :
    List FSEntry :=
  es.map (fun e =>
    match e with
    | .dir n cs => if n == dirName then .dir n (putFile fname content cs) else e
    | .file _ _ => e)

/-- The per-row body of the export loop (`export_template_defaults.py`
lines 74-136): make the slug directory and write the four per-template
resource files into it. -/
def exportRow (es : List FSEntry) (r : TemplateRow) : List FSEntry :=
  let es := mkdirP es r.slug
  let es := writeUnder es r.slug (r.slug ++ ".html".toList) (r.html.getD [])
  let es := writeUnder es r.slug (r.slug ++ ".txt".toList) (r.text.getD [])
  let es := writeUnder es r.slug (r.slug ++ ".manifest.json".toList)
    (r.manifest.getD jsonEmptyObj)
  writeUnder es r.slug (r.slug ++ ".seed.json".toList) (r.seed.getD jsonEmptyObj)

/-- Name of the catalog document (`export_template_defaults.py` line 144). -/
def catalogFileName : List Char := "catalog.json".toList

/-- The serialized catalog (`export_template_defaults.py` lines 138-148):
a document determined by the catalog version, the generation timestamp
`datetime.now(...)` (passed in as `now`), and the rows.  Its JSON rendering
is abstracted to a deterministic encoding of those inputs, which no
verified claim inspects. -/
def catalogContent (version : Nat) (now : List Char) (rows : List TemplateRow) :
    List Char :=
  (Nat.repr version).toList ++ now ++
    (rows.map (fun r => r.slug ++ r.rowName)).flatten

/-- Model of `export_templates` (`export_template_defaults.py` lines 54-150)
as its effect on the output directory listing: the per-row loop, then the
catalog document. -/
def export_templates (es : List FSEntry) (rows : List TemplateRow)
    (version : Nat) (now : List Char) : List FSEntry :=
  putFile catalogFileName (catalogContent version now rows)
    (rows.foldl exportRow es)

/-- Model of the exporter's `main` (`export_template_defaults.py`
lines 153-162) after argument checks: pre-clear the output directory, then
export into it.  `pre` is the output directory's prior listing (`none` when
the directory did not exist). -/
def runExport (pre : Option (List FSEntry)) (rows : List TemplateRow)
    (version : Nat) (now : List Char) : List FSEntry :=
  export_templates (ensure_clean_directory pre) rows version now

/-- A two-file fixture: subdirectory `A` with eligible, readable files
`A/a.txt` (contents `"x\n"`) and `A/b.txt` (contents `"y\n"`). -/
def fileAx : SrcFile := ⟨["A".toList, "a.txt".toList], "x\n".toList, true⟩

/-- Second file of the two-file fixture. -/
def fileBy : SrcFile := ⟨["A".toList, "b.txt".toList], "y\n".toList, true⟩

/-- The two-file fixture subdirectory. -/
def dirAB : Subdir := ⟨"A".toList, [fileAx, fileBy]⟩

/-- The archive the writer produces for the two-file fixture. -/
def dirABArchive : ArchiveOut :=
  match combine_swift_files [dirAB] with
  | .ok (some a) => a
  | _ => ⟨[], [], []⟩

/-- A one-file fixture: subdirectory `B` with one eligible, readable file
whose contents end without a newline. -/
def fileCs : SrcFile := ⟨["B".toList, "c.swift".toList], "s\nt".toList, true⟩

/-- The one-file fixture subdirectory. -/
def dirB : Subdir := ⟨"B".toList, [fileCs]⟩

/-- The archive the writer produces for the one-file fixture. -/
def dirBArchive : ArchiveOut :=
  match combine_swift_files [dirB] with
  | .ok (some a) => a
  | _ => ⟨[], [], []⟩

/-- An eligible file whose open fails. -/
def unreadableFile : SrcFile := ⟨["C".toList, "gone.swift".toList], "q\n".toList, false⟩

/-- A one-subdirectory fixture whose only file is eligible and readable,
for re-ingestion analysis of a run's own output. -/
def rerunDir : Subdir :=
  ⟨"A".toList, [⟨["A".toList, "x.swift".toList], "let a = 1\n".toList, true⟩]⟩

/-- The output of a run over `rerunDir` (archives plus index bytes). -/
def rerunOutput : RunOutput :=
  match flattenRun 0 [rerunDir] none with
  | .ok o => o
  | .error _ => ⟨[], none⟩


/-- Insertion places an element somewhere in the list: the result is a
permutation of consing it. -/
theorem pyInsert_perm (le : α → α → Bool) (x : α) (l : List α) :
    (pyInsert le x l).Perm (x :: l) := by
  induction l with
  | nil => simp [pyInsert]
  | cons y ys ih =>
    simp only [pyInsert]
    split
    · exact List.Perm.refl _
    · exact (ih.cons y).trans (List.Perm.swap x y ys)

/-- The stable sort permutes its input. -/
theorem pySort_perm (le : α → α → Bool) (l : List α) : (pySort le l).Perm l := by
  induction l with
  | nil => simp [pySort]
  | cons x xs ih => exact (pyInsert_perm le x (pySort le xs)).trans (ih.cons x)

theorem countNL_append (a b : List Char) : countNL (a ++ b) = countNL a + countNL b :=
  List.count_append '\n' a b

/-- The cursor advance of the writing loop for one file equals the number of
newlines its whole chunk (header, contents, trailing newline) adds to the
archive: the recorded content line count already pays for the trailing
newline. -/
theorem countNL_chunk (f : SrcFile) : countNL (chunk f) = headerLines f + contentLines f := by
  simp only [chunk, headerLines, contentLines, countNL_append]
  simp [countNL]
  omega

/-- Characterisation of a successful writing loop at cursor `c`: the text is
the concatenation of the per-file chunks; there is one entry per file; every
start line is at least the starting cursor; start lines strictly increase;
and the `i`-th entry's start line is the starting cursor plus the newlines
of the text written before its header, while its recorded line count is the
`i`-th file's content line count. -/
theorem writeLoop_ok :
    ∀ (fs : List SrcFile) (c : Nat) (es : List Entry) (text : List Char),
      writeLoop fs c = .ok (es, text) →
      text = (fs.map chunk).flatten ∧
      es.length = fs.length ∧
      (∀ e ∈ es, c ≤ e.start_line) ∧
      List.Pairwise (fun a b => a.start_line < b.start_line) es ∧
      (∀ i, (hi : i < fs.length) →
        ∃ hi' : i < es.length,
          (es.get ⟨i, hi'⟩).start_line = c + countNL ((fs.take i).map chunk).flatten ∧
          (es.get ⟨i, hi'⟩).loc = contentLines (fs.get ⟨i, hi⟩))
  | [], c, es, text, h => by
    simp only [writeLoop, Except.ok.injEq, Prod.mk.injEq] at h
    obtain ⟨he, ht⟩ := h
    subst he; subst ht
    refine ⟨by simp, rfl, by simp, by simp, ?_⟩
    intro i hi
    simp at hi
  | f :: fs, c, es, text, h => by
    simp only [writeLoop] at h
    cases hr : f.readable with
    | false => rw [hr] at h; simp at h
    | true =>
      rw [hr] at h
      simp only [if_true] at h
      cases hw : writeLoop fs (c + countNL (headerFor f.relParts) + (countNL f.contents + 1)) with
      | error e => rw [hw] at h; simp at h
      | ok p =>
        rw [hw] at h
        obtain ⟨es', t'⟩ := p
        simp only [Except.ok.injEq, Prod.mk.injEq] at h
        obtain ⟨he, ht⟩ := h
        subst he; subst ht
        obtain ⟨iht, ihl, ihlb, ihpw, ihidx⟩ := writeLoop_ok fs _ es' t' hw
        have hcl : 1 ≤ contentLines f := Nat.succ_le_succ (Nat.zero_le _)
        have hadv : c + countNL (headerFor f.relParts) + (countNL f.contents + 1)
            = c + headerLines f + contentLines f := rfl
        refine ⟨?_, by simp [ihl], ?_, ?_, ?_⟩
        · simp [chunk, iht, List.append_assoc]
        · intro e he
          rcases List.mem_cons.1 he with rfl | hmem
          · exact Nat.le_refl _
          · have h2 := ihlb e hmem
            show c ≤ e.start_line
            omega
        · refine List.pairwise_cons.2 ⟨fun e' he' => ?_, ihpw⟩
          have hge := ihlb e' he'
          show c < e'.start_line
          omega
        · intro i hi
          cases i with
          | zero =>
            refine ⟨Nat.succ_le_succ (Nat.zero_le _), ?_, rfl⟩
            simp [countNL]
          | succ j =>
            have hj : j < fs.length := Nat.lt_of_succ_lt_succ hi
            obtain ⟨hj', hstart, hloc⟩ := ihidx j hj
            refine ⟨Nat.succ_lt_succ hj', ?_, ?_⟩
            · show (es'.get ⟨j, hj'⟩).start_line = _
              rw [hstart, hadv]
              have : ((f :: fs).take (j + 1)).map chunk
                  = chunk f :: (fs.take j).map chunk := rfl
              rw [this]
              show c + headerLines f + contentLines f + _
                  = c + countNL (chunk f ++ ((fs.take j).map chunk).flatten)
              rw [countNL_append, countNL_chunk]
              omega
            · show (es'.get ⟨j, hj'⟩).loc = _
              rw [hloc]
              rfl

/-- A file whose open fails anywhere in the list aborts the writing loop
with the read error (`flatten.py` line 64 has no handler). -/
theorem writeLoop_error_unreadable :
    ∀ (fs : List SrcFile) (c : Nat) (f : SrcFile), f ∈ fs → f.readable = false →
      writeLoop fs c = .error .readError
  | [], _, f, hmem, _ => absurd hmem (List.not_mem_nil f)
  | g :: fs, c, f, hmem, hr => by
    simp only [writeLoop]
    cases hgr : g.readable with
    | false => simp
    | true =>
      simp only [if_true]
      have hf : f ∈ fs := by
        rcases List.mem_cons.1 hmem with rfl | hmem'
        · rw [hr] at hgr; exact absurd hgr (by simp)
        · exact hmem'
      rw [writeLoop_error_unreadable fs _ f hf hr]

/-- Extraction of a successful, archive-producing `combine_swift_files`
run: its entries and text come from the writing loop over the sorted files
at cursor 1, and its label is the output name. -/
theorem combine_ok_some {ds : List Subdir} {a : ArchiveOut}
    (h : combine_swift_files ds = .ok (some a)) :
    writeLoop (sortedFiles ds) 1 = .ok (a.entries, a.text) ∧ a.label = outName ds := by
  unfold combine_swift_files at h
  split at h
  · simp at h
  · cases hw : writeLoop (sortedFiles ds) 1 with
    | error e => rw [hw] at h; simp at h
    | ok p =>
      rw [hw] at h
      obtain ⟨es, t⟩ := p
      simp only [Except.ok.injEq, Option.some.injEq] at h
      subst h
      exact ⟨rfl, rfl⟩

/-- C5: within one archive the recorded start lines strictly increase, and
each entry's start line is the literal 1-based line number at which its
header block begins in the written file: one plus the newline count of the
text written before that header (the archive text being exactly the
concatenation of the per-file chunks). -/
theorem c5_start_lines (ds : List Subdir) (a : ArchiveOut)
    (h : combine_swift_files ds = .ok (some a)) :
    a.text = ((sortedFiles ds).map chunk).flatten ∧
    List.Pairwise (fun e e' => e.start_line < e'.start_line) a.entries ∧
    ∀ i, (hi : i < (sortedFiles ds).length) →
      ∃ hi' : i < a.entries.length,
        (a.entries.get ⟨i, hi'⟩).start_line
          = 1 + countNL (((sortedFiles ds).take i).map chunk).flatten := by
  obtain ⟨hw, -⟩ := combine_ok_some h
  obtain ⟨ht, -, -, hpw, hidx⟩ := writeLoop_ok _ _ _ _ hw
  refine ⟨ht, hpw, ?_⟩
  intro i hi
  obtain ⟨hi', hs, -⟩ := hidx i hi
  exact ⟨hi', hs⟩

/-- C5 witness: the one-file fixture instantiates the start-line theorem. -/
theorem c5_start_lines_witness :
    dirBArchive.text = ((sortedFiles [dirB]).map chunk).flatten ∧
    List.Pairwise (fun e e' => e.start_line < e'.start_line) dirBArchive.entries ∧
    ∀ i, (hi : i < (sortedFiles [dirB]).length) →
      ∃ hi' : i < dirBArchive.entries.length,
        (dirBArchive.entries.get ⟨i, hi'⟩).start_line
          = 1 + countNL (((sortedFiles [dirB]).take i).map chunk).flatten :=
  c5_start_lines [dirB] dirBArchive (by decide)

/-- C1 as stated is false on the code: for the two-file fixture the second
entry starts at line 9, while the spec's recurrence
`start_line[0] + header_lines(0) + content_lines(0) + 1 = 1 + 6 + 2 + 1`
predicts 10.  The cursor advances only by header plus recorded content
lines; no extra 1 is added for the trailing blank line. -/
theorem c1_counterexample :
    dirABArchive.entries.map Entry.start_line = [1, 9] ∧
    dirABArchive.entries.map Entry.loc = [2, 2] ∧
    headerLines fileAx = 6 ∧
    ¬ (9 = 1 + 6 + 2 + 1) := by decide

/-- C1 (amended): consecutive start lines satisfy
`start_line[i+1] = start_line[i] + header_lines(i) + content_lines(i)`,
where `content_lines(i)` is the recorded line count (newline count + 1);
that count already pays for the trailing blank line, so no further 1 is
added. -/
theorem c1_amended_recurrence (ds : List Subdir) (a : ArchiveOut) (i : Nat)
    (h : combine_swift_files ds = .ok (some a))
    (hi : i + 1 < (sortedFiles ds).length) :
    ∃ (h1 : i + 1 < a.entries.length) (h0 : i < a.entries.length)
      (hf : i < (sortedFiles ds).length),
      (a.entries.get ⟨i + 1, h1⟩).start_line
        = (a.entries.get ⟨i, h0⟩).start_line
          + headerLines ((sortedFiles ds).get ⟨i, hf⟩)
          + (a.entries.get ⟨i, h0⟩).loc := by
  obtain ⟨hw, -⟩ := combine_ok_some h
  obtain ⟨-, -, -, -, hidx⟩ := writeLoop_ok _ _ _ _ hw
  have hfi : i < (sortedFiles ds).length := Nat.lt_of_succ_lt hi
  obtain ⟨h0, hs0, hl0⟩ := hidx i hfi
  obtain ⟨h1, hs1, -⟩ := hidx (i + 1) hi
  refine ⟨h1, h0, hfi, ?_⟩
  rw [hs1, hs0, hl0]
  have htake : (sortedFiles ds).take (i + 1)
      = (sortedFiles ds).take i ++ [(sortedFiles ds).get ⟨i, hfi⟩] := by
    rw [List.take_succ]
    congr 1
    rw [List.getElem?_eq_getElem hfi]
    simp
  rw [htake, List.map_append, List.flatten_append, countNL_append]
  have hch : countNL ([chunk ((sortedFiles ds).get ⟨i, hfi⟩)].flatten)
      = headerLines ((sortedFiles ds).get ⟨i, hfi⟩)
        + contentLines ((sortedFiles ds).get ⟨i, hfi⟩) := by
    simp [countNL_chunk]
  rw [List.map_cons, List.map_nil] at *
  rw [hch]
  unfold contentLines
  omega

/-- C1 witness: the amended recurrence at the two-file fixture, `i = 0`. -/
theorem c1_amended_recurrence_witness :
    ∃ (h1 : 0 + 1 < dirABArchive.entries.length)
      (h0 : 0 < dirABArchive.entries.length)
      (hf : 0 < (sortedFiles [dirAB]).length),
      (dirABArchive.entries.get ⟨0 + 1, h1⟩).start_line
        = (dirABArchive.entries.get ⟨0, h0⟩).start_line
          + headerLines ((sortedFiles [dirAB]).get ⟨0, hf⟩)
          + (dirABArchive.entries.get ⟨0, h0⟩).loc :=
  c1_amended_recurrence [dirAB] dirABArchive 0 (by decide) (by decide)

/-- C7: the error asymmetry between counting and writing.  A file whose
open fails contributes 0 lines to `count_lines_in_dir`, which stays a total
function; the same file inside any group aborts `combine_swift_files` with
the uncaught read error. -/
theorem c7_error_asymmetry (f : SrcFile) (hf : f.readable = false) :
    (∀ (nm : List Char) (fs : List SrcFile),
      count_lines_in_dir ⟨nm, f :: fs⟩ = count_lines_in_dir ⟨nm, fs⟩) ∧
    (∀ ds : List Subdir, f ∈ allFiles ds →
      combine_swift_files ds = .error .readError) := by
  constructor
  · intro nm fs
    simp only [count_lines_in_dir, gather_swift_files]
    rw [List.filter_cons]
    split
    · simp [hf]
    · rfl
  · intro ds hmem
    have hne : (allFiles ds).isEmpty = false := by
      simp [List.ne_nil_of_mem hmem]
    have hmem' : f ∈ sortedFiles ds :=
      (pySort_perm fileLe (allFiles ds)).mem_iff.2 hmem
    unfold combine_swift_files
    rw [hne]
    simp only [Bool.false_eq_true, if_false]
    rw [writeLoop_error_unreadable _ 1 f hmem' hf]

/-- C7 witness: the concrete unreadable file instantiates the asymmetry. -/
theorem c7_error_asymmetry_witness :
    (∀ (nm : List Char) (fs : List SrcFile),
      count_lines_in_dir ⟨nm, unreadableFile :: fs⟩ = count_lines_in_dir ⟨nm, fs⟩) ∧
    (∀ ds : List Subdir, unreadableFile ∈ allFiles ds →
      combine_swift_files ds = .error .readError) :=
  c7_error_asymmetry unreadableFile rfl

/-- C2: a tree whose only top-level subdirectory holds no eligible files
makes the run crash: `combine_swift_files` returns `None` and `main`'s
unpacking of it raises `TypeError` (modelled `noneUnpack`), with or without
a file cap.  A tree with no subdirectories at all does succeed with zero
archives, showing the intended handling the unpacking defeats. -/
theorem c2_empty_subdir_crash :
    flattenRun 0 [⟨"A".toList, []⟩] none = .error .noneUnpack ∧
    flattenRun 0 [⟨"A".toList, []⟩] (some 5) = .error .noneUnpack ∧
    flattenRun 0 [] none = .ok ⟨[], none⟩ := by decide

/-- C6: the output of a run is a function of the source tree and the
arguments alone.  The wall clock available to a run is passed explicitly
and provably never influences the archives or the index bytes, so two runs
over an unmodified tree with identical arguments produce identical output. -/
theorem c6_determinism (t1 t2 : Nat) (ds : List Subdir) (mf : Option Nat) :
    flattenRun t1 ds mf = flattenRun t2 ds mf := rfl

/-- C3: on counts A=10, B=20, C=5, D=1 with target 2 the balancer first
merges D with C, then merges that group with A, returning the list
`[[B], [D, C, A]]`, which as a partition is exactly the two groups
`{D, C, A}` and `{B}`. -/
theorem c3_balancer_example :
    merge_smallest_dirs
        [("A".toList, 10), ("B".toList, 20), ("C".toList, 5), ("D".toList, 1)] 2
      = [["B".toList], ["D".toList, "C".toList, "A".toList]] ∧
    (merge_smallest_dirs
        [("A".toList, 10), ("B".toList, 20), ("C".toList, 5), ("D".toList, 1)] 2).Perm
      [["D".toList, "C".toList, "A".toList], ["B".toList]] := by
  have h : merge_smallest_dirs
      [("A".toList, 10), ("B".toList, 20), ("C".toList, 5), ("D".toList, 1)] 2
      = [["B".toList], ["D".toList, "C".toList, "A".toList]] := by decide
  refine ⟨h, ?_⟩
  rw [h]
  exact List.Perm.swap _ _ _

/-- Appending the `.txt` extension to a nonempty name yields `.txt` as the
CPython suffix: the last dot is the appended one, neither first nor last
character. -/
theorem pathSuffix_append_txt (d : List Char) (hd : d ≠ []) :
    pathSuffix (d ++ ".txt".toList) = ".txt".toList := by
  have hlen : d.length ≠ 0 := by simpa [List.length_eq_zero] using hd
  have hrev : (d ++ ".txt".toList).reverse = 't' :: 'x' :: 't' :: '.' :: d.reverse := by
    rw [List.reverse_append]
    rfl
  have hfi : List.findIdx? (fun c => c == '.') ('t' :: 'x' :: 't' :: '.' :: d.reverse)
      = some 3 := by
    simp [List.findIdx?_cons]
  have hL : (d ++ ".txt".toList).length = d.length + 4 := by simp
  have h2 : ¬ (3 = (d ++ ".txt".toList).length - 1) := by
    rw [hL]
    omega
  simp only [pathSuffix]
  rw [hrev]
  simp only [hfi]
  rw [if_neg (show ¬ (3 = 0) by decide), if_neg h2]
  rfl

/-- C4 is false as stated: a run over a single subdirectory `A` generates
the archive file `A.txt` and the index file `SourceIndex.txt`, and both
names pass the discoverer's eligibility filter (allow-listed `.txt`
extension, no `Merged_` marker), so a re-run over the output ingests them. -/
theorem c4_counterexample :
    rerunOutput.archives.map archiveFileName = ["A.txt".toList] ∧
    rerunOutput.indexText.isSome = true ∧
    eligibleName "A.txt".toList = true ∧
    eligibleName indexFileName = true := by decide

/-- C4 (amended): only merged archives are excluded by the naming filter —
any name carrying the `Merged_` marker fails it — while a single-directory
archive name `d ++ ".txt"` (for a nonempty directory name without the
marker) and the index file name pass it, so a re-run ingests those. -/
theorem c4_amended (d rest : List Char) (hd : d ≠ [])
    (hm : mergedMarker.isPrefixOf (d ++ ".txt".toList) = false) :
    eligibleName (mergedMarker ++ rest) = false ∧
    eligibleName (d ++ ".txt".toList) = true ∧
    eligibleName indexFileName = true := by
  refine ⟨?_, ?_, by decide⟩
  · unfold eligibleName
    have hp : mergedMarker.isPrefixOf (mergedMarker ++ rest) = true := by
      rw [List.isPrefixOf_iff_prefix]
      exact List.prefix_append _ _
    rw [hp]
    simp
  · unfold eligibleName
    rw [pathSuffix_append_txt d hd, hm]
    decide

/-- C4 witness: the amended statement at the directory name `A` and the
marker remainder `B+C.txt`. -/
theorem c4_amended_witness :
    eligibleName (mergedMarker ++ "B+C.txt".toList) = false ∧
    eligibleName ("A".toList ++ ".txt".toList) = true ∧
    eligibleName indexFileName = true :=
  c4_amended "A".toList "B+C.txt".toList (by decide) (by decide)

/-- The two lawful boolean-equality instances on lists of directory names
agree, letting lemmas stated for one rewrite goals stated with the other. -/
theorem beqListListChar :
    (instBEqOfDecidableEq : BEq (List (List Char))) = List.instBEq := by
  refine congrArg BEq.mk ?_
  funext a b
  show decide (a = b) = (a == b)
  cases h : a == b with
  | true =>
    have hab : a = b := eq_of_beq h
    simp [hab]
  | false =>
    have hab : ¬ (a = b) := by
      intro he
      rw [he] at h
      simp at h
    simp [hab]

/-- One merging step never loses or duplicates a directory name: the
flattening of the groups is preserved up to permutation, whatever the fuel,
the dict state and the target. -/
theorem mergeLoop_flatten_perm :
    ∀ (fuel : Nat) (groups : List (List (List Char))) (locs : List (List Char × Nat))
      (maxFiles : Nat),
      ((mergeLoop fuel groups locs maxFiles).flatten).Perm groups.flatten
  | 0, groups, locs, maxFiles => by
    simp only [mergeLoop]
    exact List.Perm.refl _
  | fuel + 1, groups, locs, maxFiles => by
    simp only [mergeLoop]
    split
    · exact List.Perm.refl _
    · split
      · next g1 g2 rest hs =>
        have hperm : groups.Perm (g1 :: g2 :: rest) := by
          rw [← hs]
          exact (pySort_perm _ _).symm
        have h1 : (groups.erase g1).Perm (g2 :: rest) := by
          have h := hperm.erase g1
          rw [beqListListChar] at h
          rwa [List.erase_cons_head] at h
        have h2 : ((groups.erase g1).erase g2).Perm rest := by
          have h := h1.erase g2
          rw [beqListListChar] at h
          rwa [List.erase_cons_head] at h
        have key : ((((groups.erase g1).erase g2) ++ [g1 ++ g2]).flatten).Perm
            groups.flatten := by
          rw [List.flatten_append]
          have hx : ([g1 ++ g2] : List (List (List Char))).flatten = g1 ++ g2 := by simp
          rw [hx]
          have p1 := (h2.flatten).append_right (g1 ++ g2)
          have p3 : ((g1 ++ g2) ++ rest.flatten).Perm groups.flatten := by
            have h := hperm.symm.flatten
            simpa [List.append_assoc] using h
          exact p1.trans (List.perm_append_comm.trans p3)
        exact (mergeLoop_flatten_perm fuel _ _ maxFiles).trans key
      · exact List.Perm.refl _

/-- The group count after merging: unchanged when already within the target,
otherwise exactly the target, given at least one target slot and enough
fuel (one unit per merge, as in the Python loop). -/
theorem mergeLoop_length :
    ∀ (fuel : Nat) (groups : List (List (List Char))) (locs : List (List Char × Nat))
      (maxFiles : Nat), 1 ≤ maxFiles → groups.length ≤ fuel + maxFiles →
      (mergeLoop fuel groups locs maxFiles).length
        = if groups.length ≤ maxFiles then groups.length else maxFiles
  | 0, groups, locs, maxFiles, _, hfuel => by
    simp only [mergeLoop]
    rw [if_pos (by omega)]
  | fuel + 1, groups, locs, maxFiles, hmf, hfuel => by
    simp only [mergeLoop]
    split
    · rfl
    · next hgt =>
      split
      · next g1 g2 rest hs =>
        have hperm : groups.Perm (g1 :: g2 :: rest) := by
          rw [← hs]
          exact (pySort_perm _ _).symm
        have h1 : (groups.erase g1).Perm (g2 :: rest) := by
          have h := hperm.erase g1
          rw [beqListListChar] at h
          rwa [List.erase_cons_head] at h
        have hg1 : g1 ∈ groups := hperm.symm.subset (List.mem_cons_self _ _)
        have hg2 : g2 ∈ groups.erase g1 := h1.symm.subset (List.mem_cons_self _ _)
        have hglen : 2 ≤ groups.length := by
          have h := hperm.length_eq
          simp at h
          omega
        have hlen : (((groups.erase g1).erase g2) ++ [g1 ++ g2]).length
            = groups.length - 1 := by
          rw [List.length_append, List.length_erase_of_mem hg2,
            List.length_erase_of_mem hg1]
          simp
          omega
        rw [mergeLoop_length fuel _ _ maxFiles hmf (by rw [hlen]; omega)]
        rw [hlen]
        split <;> omega
      · next hnp =>
        exfalso
        have hglen : 2 ≤ groups.length := by omega
        have hslen := (pySort_perm
          (fun g1 g2 => decide (sumLocs locs g1 ≤ sumLocs locs g2)) groups).length_eq
        cases hq : pySort (fun g1 g2 => decide (sumLocs locs g1 ≤ sumLocs locs g2)) groups with
        | nil =>
          rw [hq] at hslen
          simp at hslen
          omega
        | cons a t =>
          cases t with
          | nil =>
            rw [hq] at hslen
            simp at hslen
            omega
          | cons b r => exact hnp a b r hq

/-- C9: for every count map and target of at least 1, the balancer returns
a partition of the key set — the concatenation of the returned groups is a
permutation of the keys, so with distinct keys every name lands in exactly
one group exactly once and no other name appears — and the group count is
the target when there are more keys than the target, else the key count. -/
theorem c9_partition (dir_locs : List (List Char × Nat)) (target : Nat)
    (ht : 1 ≤ target) :
    ((merge_smallest_dirs dir_locs target).flatten).Perm (dir_locs.map Prod.fst) ∧
    ((dir_locs.map Prod.fst).Nodup →
      ((merge_smallest_dirs dir_locs target).flatten).Nodup) ∧
    (merge_smallest_dirs dir_locs target).length
      = if dir_locs.length ≤ target then dir_locs.length else target := by
  have hflat : (dir_locs.map (fun p => [p.1])).flatten = dir_locs.map Prod.fst := by
    induction dir_locs with
    | nil => rfl
    | cons p ps ih => simp [ih]
  have h1 := mergeLoop_flatten_perm dir_locs.length (dir_locs.map (fun p => [p.1]))
    dir_locs target
  rw [hflat] at h1
  have h2 := mergeLoop_length dir_locs.length (dir_locs.map (fun p => [p.1]))
    dir_locs target ht (by rw [List.length_map]; omega)
  rw [List.length_map] at h2
  exact ⟨h1, fun hnd => h1.nodup_iff.2 hnd, h2⟩

/-- C9 witness: the partition properties at the two-key map A=1, B=2 with
target 1. -/
theorem c9_partition_witness :
    ((merge_smallest_dirs [("A".toList, 1), ("B".toList, 2)] 1).flatten).Perm
      ([("A".toList, 1), ("B".toList, 2)].map Prod.fst) ∧
    (([("A".toList, 1), ("B".toList, 2)].map Prod.fst).Nodup →
      ((merge_smallest_dirs [("A".toList, 1), ("B".toList, 2)] 1).flatten).Nodup) ∧
    (merge_smallest_dirs [("A".toList, 1), ("B".toList, 2)] 1).length
      = if [("A".toList, 1), ("B".toList, 2)].length ≤ 1
        then [("A".toList, 1), ("B".toList, 2)].length else 1 :=
  c9_partition [("A".toList, 1), ("B".toList, 2)] 1 (by decide)

/-- C8: the redaction transform is a pure elementwise function of the line
stream and the integer threshold: it keeps the stream's length; a line whose
length is at most the limit passes unchanged; a longer line becomes the
placeholder carrying the line's original length, newline-terminated. -/
theorem c8_redaction (lines : List (List Char)) (limit : Int) :
    (redact_lines lines limit).length = lines.length ∧
    ∀ p ∈ lines.zip (redact_lines lines limit),
      ((p.1.length : Int) ≤ limit → p.2 = p.1) ∧
      (limit < (p.1.length : Int) → p.2 = placeholderFor p.1.length ++ ['\n']) := by
  refine ⟨by simp [redact_lines], ?_⟩
  induction lines with
  | nil =>
    intro p hp
    simp [redact_lines] at hp
  | cons l ls ih =>
    intro p hp
    simp only [redact_lines, List.map_cons, List.zip_cons_cons] at hp
    rcases List.mem_cons.1 hp with hp1 | hmem
    · subst hp1
      constructor
      · intro hle
        show (if (l.length : Int) ≤ limit then l else placeholderFor l.length ++ ['\n']) = l
        rw [if_pos hle]
      · intro hlt
        show (if (l.length : Int) ≤ limit then l else placeholderFor l.length ++ ['\n'])
            = placeholderFor l.length ++ ['\n']
        rw [if_neg (not_le.2 hlt)]
    · exact ih p (by simpa [redact_lines] using hmem)

/-- The deletion loop removes every child: a cleared listing is empty. -/
theorem clearEntries_eq_nil : ∀ l : List FSEntry, clearEntries l = []
  | [] => rfl
  | .file _ _ :: rest => clearEntries_eq_nil rest
  | .dir _ _ :: rest => clearEntries_eq_nil rest

/-- Writing a file into a listing adds no name besides the file's own. -/
theorem mem_names_putFile {nm c x : List Char} {es : List FSEntry}
    (hx : x ∈ (putFile nm c es).map entryName) :
    x = nm ∨ x ∈ es.map entryName := by
  unfold putFile at hx
  split at hx
  · obtain ⟨y, hy, rfl⟩ := List.mem_map.1 hx
    obtain ⟨e, he, rfl⟩ := List.mem_map.1 hy
    cases hb : entryName e == nm with
    | true =>
      left
      simp [hb, entryName]
    | false =>
      right
      simpa using List.mem_map_of_mem entryName he
  · rw [List.map_append] at hx
    rcases List.mem_append.1 hx with h | h
    · right
      exact h
    · left
      simpa [entryName] using h

/-- Writing a file inside a named child directory leaves the parent's name
list unchanged. -/
theorem names_writeUnder (es : List FSEntry) (dn fn c : List Char) :
    (writeUnder es dn fn c).map entryName = es.map entryName := by
  unfold writeUnder
  rw [List.map_map]
  apply List.map_congr_left
  intro e _
  cases e with
  | file n c2 => rfl
  | dir n cs =>
    show entryName (if n == dn then FSEntry.dir n (putFile fn c cs) else FSEntry.dir n cs)
        = entryName (FSEntry.dir n cs)
    cases h : n == dn <;> simp [h, entryName]

/-- Creating a directory adds no name besides its own. -/
theorem mem_names_mkdirP {nm x : List Char} {es : List FSEntry}
    (hx : x ∈ (mkdirP es nm).map entryName) :
    x = nm ∨ x ∈ es.map entryName := by
  unfold mkdirP at hx
  split at hx
  · right
    exact hx
  · rw [List.map_append] at hx
    rcases List.mem_append.1 hx with h | h
    · right
      exact h
    · left
      simpa [entryName] using h

/-- One exported row adds no name besides its slug. -/
theorem mem_names_exportRow {x : List Char} {es : List FSEntry} {r : TemplateRow}
    (hx : x ∈ (exportRow es r).map entryName) :
    x = r.slug ∨ x ∈ es.map entryName := by
  simp only [exportRow] at hx
  rw [names_writeUnder, names_writeUnder, names_writeUnder, names_writeUnder] at hx
  exact mem_names_mkdirP hx

/-- The export loop adds no name besides the rows' slugs. -/
theorem mem_names_foldl_exportRow :
    ∀ (rows : List TemplateRow) (es : List FSEntry) (x : List Char),
      x ∈ (rows.foldl exportRow es).map entryName →
      x ∈ es.map entryName ∨ ∃ r ∈ rows, x = r.slug
  | [], _, _, hx => Or.inl hx
  | r :: rows, es, x, hx => by
    rcases mem_names_foldl_exportRow rows (exportRow es r) x hx with h | h
    · rcases mem_names_exportRow h with h1 | h1
      · exact Or.inr ⟨r, List.mem_cons_self r rows, h1⟩
      · exact Or.inl h1
    · obtain ⟨r2, hr2, hs⟩ := h
      exact Or.inr ⟨r2, List.mem_cons_of_mem r hr2, hs⟩

/-- C10: the exporter pre-clears its output directory — `ensure_clean_directory`
leaves an empty listing whatever was there — so the run's result does not
depend on the directory's prior contents, and afterwards every entry of the
output directory is either the catalog document or a per-row slug directory. -/
theorem c10_preclear (pre : Option (List FSEntry)) (rows : List TemplateRow)
    (version : Nat) (now : List Char) :
    ensure_clean_directory pre = [] ∧
    runExport pre rows version now = runExport none rows version now ∧
    ∀ e ∈ runExport pre rows version now,
      entryName e = catalogFileName ∨ ∃ r ∈ rows, entryName e = r.slug := by
  have hclean : ensure_clean_directory pre = [] := by
    cases pre with
    | none => rfl
    | some children => exact clearEntries_eq_nil children
  refine ⟨hclean, ?_, ?_⟩
  · unfold runExport
    rw [hclean]
    rfl
  · intro e he
    have hx : entryName e ∈ (runExport pre rows version now).map entryName :=
      List.mem_map_of_mem entryName he
    unfold runExport export_templates at hx
    rw [hclean] at hx
    rcases mem_names_putFile hx with h | h
    · exact Or.inl h
    · rcases mem_names_foldl_exportRow rows [] (entryName e) h with h1 | h1
      · simp at h1
      · exact Or.inr h1
